import Mathlib

set_option maxRecDepth 8192

/-! Shallow embedding of the moodleh5pConverter core (the h5pBuilder module in
src/unnamed/part_000).  JavaScript strings are modelled as lists of characters
(`Str`); JS `trim` / `startsWith` / `split` / first-occurrence `replace` become
the corresponding list functions, and JS `\s` / `trim` whitespace is modelled
by `Char.isWhitespace` (identical on the ASCII inputs the tool processes). -/

abbrev Str := List Char

def str (s : String) : Str := s.data

/-- JS `String.prototype.trim`: drop whitespace from both ends. -/
def jsTrim (s : Str) : Str :=
  ((s.dropWhile Char.isWhitespace).reverse.dropWhile Char.isWhitespace).reverse

/-- JS `text.replace(/\r\n/g, '\n').replace(/\r/g, '\n')`: the line-terminator
normalisation performed both by `buildH5P` (line 664) and by
`parseChapterSegments` (line 555). -/
def normalizeChars : Str → Str
  | [] => []
  | '\r' :: '\n' :: rest => '\n' :: normalizeChars rest
  | '\r' :: rest => '\n' :: normalizeChars rest
  | c :: rest => c :: normalizeChars rest

/-- JS `String.prototype.split` with a one-character separator (never returns
an empty list, like its JS counterpart). -/
def splitOnChar (sep : Char) : Str → List Str
  | [] => [[]]
  | c :: rest =>
    if c = sep then [] :: splitOnChar sep rest
    else
      match splitOnChar sep rest with
      | [] => [[c]]
      | l :: ls => (c :: l) :: ls

/-! ## Chapter splitter (buildH5P, lines 664-695) -/

/-- `line.trim().startsWith('# ')`: the chapter-boundary test of `buildH5P`. -/
def headingMark (line : Str) : Bool := (str "# ").isPrefixOf (jsTrim line)

/-- `line.replace(/^#\s+/, '')`: strip a leading `#` plus following whitespace
from the raw (untrimmed) line; if the regex does not match, the line is kept. -/
def stripHeading (line : Str) : Str :=
  match line with
  | [] => []
  | c :: rest =>
    if c = '#' then
      if rest.takeWhile Char.isWhitespace = [] then c :: rest
      else rest.dropWhile Char.isWhitespace
    else c :: rest

/-- `line.replace(/^#\s+/, '').trim()`: the chapter title taken from a heading. -/
def headingTitle (line : Str) : Str := jsTrim (stripHeading line)

/-- The mutable state of the chapter-splitting loop in `buildH5P`. -/
structure SplitState where
  chapters : List (Str × Str)
  currentTitle : Str
  currentLines : List Str
  isImplicit : Bool
deriving DecidableEq

/-- One iteration of the `lines.forEach` chapter-splitting loop. -/
def chapterStep (st : SplitState) (line : Str) : SplitState :=
  if headingMark line then
    { chapters :=
        if st.currentTitle ≠ [] ∧ (st.currentLines ≠ [] ∨ st.isImplicit = false) then
          st.chapters ++ [(st.currentTitle, List.intercalate (str "\n") st.currentLines)]
        else st.chapters
      currentTitle := headingTitle line
      currentLines := []
      isImplicit := false }
  else { st with currentLines := st.currentLines ++ [line] }

/-- The initial splitter state: title `"Introduction"`, implicit, unless the
very first line is a heading (`lines.length > 0 && lines[0].trim().startsWith('# ')`). -/
def splitInit (lines : List Str) : SplitState :=
  match lines with
  | [] => ⟨[], str "Introduction", [], true⟩
  | l :: _ =>
    if headingMark l then ⟨[], [], [], false⟩ else ⟨[], str "Introduction", [], true⟩

/-- The final `if (currentTitle && currentLines.length > 0)` push after the loop. -/
def finalizeChapters (st : SplitState) : List (Str × Str) :=
  if st.currentTitle ≠ [] ∧ st.currentLines ≠ [] then
    st.chapters ++ [(st.currentTitle, List.intercalate (str "\n") st.currentLines)]
  else st.chapters

/-- The chapter-splitting phase of `buildH5P`, over an already-split line list. -/
def splitChapters (lines : List Str) : List (Str × Str) :=
  finalizeChapters (lines.foldl chapterStep (splitInit lines))

/-- Chapter splitting from the raw document text. -/
def splitChaptersOf (text : Str) : List (Str × Str) :=
  splitChapters (splitOnChar '\n' (normalizeChars text))

/-- The only user-input error of the build: `"No chapters found."`. -/
inductive BuildError where
  | noChaptersFound
deriving DecidableEq

/-- `buildH5P` up to its no-chapters check (line 693): split the document into
chapters and fail with `NoChaptersFound` when zero chapters result. -/
def buildChapters (text : Str) : Except BuildError (List (Str × Str)) :=
  let chaptersData := splitChaptersOf text
  if chaptersData.length = 0 then Except.error BuildError.noChaptersFound
  else Except.ok chaptersData

example : splitChaptersOf (str "# A\nHello") = [(str "A", str "Hello")] := by decide
example : splitChaptersOf (str "intro\n# A\nHello") =
    [(str "Introduction", str "intro"), (str "A", str "Hello")] := by decide
example : splitChaptersOf (str "\n") = [(str "Introduction", str "\n")] := by decide
example : splitChaptersOf (str "# A") = [] := by decide

/-! ## Chapter-splitter lemmas -/

lemma dropWhile_head_false {α : Type} {p : α → Bool} {l : List α} {a : α} {r : List α}
    (h : l.dropWhile p = a :: r) : p a = false := by
  induction l with
  | nil => simp [List.dropWhile] at h
  | cons b l ih =>
    rw [List.dropWhile_cons] at h
    by_cases hb : p b
    · exact ih (by simpa [hb] using h)
    · obtain ⟨rfl, -⟩ : b = a ∧ l = r := by simpa [hb] using h
      simpa using hb

lemma jsTrim_eq_nil_iff (s : Str) : jsTrim s = [] ↔ ∀ c ∈ s, c.isWhitespace = true := by
  unfold jsTrim
  rw [List.reverse_eq_nil_iff, List.dropWhile_eq_nil_iff]
  simp only [List.mem_reverse]
  constructor
  · intro h c hc
    rw [← List.takeWhile_append_dropWhile (p := Char.isWhitespace) (l := s),
      List.mem_append] at hc
    rcases hc with hc | hc
    · exact List.mem_takeWhile_imp hc
    · exact h c hc
  · intro h c hc
    refine h c ?_
    rw [← List.takeWhile_append_dropWhile (p := Char.isWhitespace) (l := s), List.mem_append]
    exact Or.inr hc

lemma headingMark_of_blank {l : Str} (h : jsTrim l = []) : headingMark l = false := by
  unfold headingMark
  rw [h]
  rfl

/-- Non-heading lines are only accumulated by the chapter-splitting loop. -/
lemma foldl_chapterStep_nonheading (ls : List Str) :
    ∀ st : SplitState, (∀ l ∈ ls, headingMark l = false) →
      ls.foldl chapterStep st = { st with currentLines := st.currentLines ++ ls } := by
  induction ls with
  | nil => intro st _; simp
  | cons l ls ih =>
    intro st h
    have hl : headingMark l = false := h l (by simp)
    rw [List.foldl_cons]
    have hstep : chapterStep st l = { st with currentLines := st.currentLines ++ [l] } := by
      simp [chapterStep, hl]
    rw [hstep, ih _ (fun x hx => h x (by simp [hx]))]
    simp

/-- Claim C1 (counterexample): the document consisting of a single newline has
only blank lines and no level-1 heading, yet the chapter-splitting phase
produces one chapter (the implicit "Introduction" chapter) and `buildH5P` does
not fail with the no-chapters error. -/
theorem c1_counterexample :
    (∀ l ∈ splitOnChar '\n' (normalizeChars (str "\n")), jsTrim l = []) ∧
    splitChaptersOf (str "\n") = [(str "Introduction", str "\n")] ∧
    buildChapters (str "\n") = Except.ok [(str "Introduction", str "\n")] := by
  refine ⟨by decide, by decide, by rfl⟩

/-- Claim C1 (amended): for every input document whose lines are all blank
(hence containing zero level-1 heading lines), the chapter-splitting phase
produces exactly one chapter — the implicit chapter titled "Introduction"
containing all those lines — so the build does not fail with the no-chapters
error. -/
theorem c1_blank_document_single_chapter (lines : List Str) (hne : lines ≠ [])
    (hblank : ∀ l ∈ lines, jsTrim l = []) :
    splitChapters lines = [(str "Introduction", List.intercalate (str "\n") lines)] ∧
    (splitChapters lines).length ≠ 0 := by
  have hmark : ∀ l ∈ lines, headingMark l = false :=
    fun l hl => headingMark_of_blank (hblank l hl)
  obtain ⟨l0, rest, rfl⟩ : ∃ l0 rest, lines = l0 :: rest := by
    cases lines with
    | nil => exact absurd rfl hne
    | cons a b => exact ⟨a, b, rfl⟩
  have hinit : splitInit (l0 :: rest) = ⟨[], str "Introduction", [], true⟩ := by
    simp [splitInit, hmark l0 (by simp)]
  constructor
  · unfold splitChapters
    rw [hinit, foldl_chapterStep_nonheading _ _ hmark]
    simp [finalizeChapters, str]
  · unfold splitChapters
    rw [hinit, foldl_chapterStep_nonheading _ _ hmark]
    simp [finalizeChapters, str]

/-- Claim C1 (witness): the amended theorem applied to a concrete two-line
blank document. -/
theorem c1_witness :
    splitChapters [str "", str "  "] = [(str "Introduction", str "\n  ")] := by
  have h := c1_blank_document_single_chapter [str "", str "  "] (by decide) (by decide)
  exact h.1.trans (by decide)

lemma headingMark_shape {l : Str} (h : headingMark l = true) :
    ∃ t, jsTrim l = '#' :: ' ' :: t := by
  unfold headingMark at h
  rw [List.isPrefixOf_iff_prefix] at h
  obtain ⟨t, ht⟩ := h
  exact ⟨t, ht.symm⟩

/-- The title extracted from a chapter-heading line is never empty. -/
lemma headingTitle_ne_nil {l : Str} (h : headingMark l = true) : headingTitle l ≠ [] := by
  obtain ⟨t, ht⟩ := headingMark_shape h
  set d := l.dropWhile Char.isWhitespace with hd
  have hdrop : d.reverse.dropWhile Char.isWhitespace = t.reverse ++ [' ', '#'] := by
    have : (d.reverse.dropWhile Char.isWhitespace).reverse = '#' :: ' ' :: t := ht
    rw [List.reverse_eq_iff] at this
    rw [this]
    simp
  -- the trailing-trim cannot end in the space of "# ", so the title text t is nonempty
  have htne : t ≠ [] := by
    intro hnil
    rw [hnil] at hdrop
    have := dropWhile_head_false (a := ' ') (r := ['#']) (by simpa using hdrop)
    simp at this
  obtain ⟨c, t', hct⟩ : ∃ c t', t.reverse = c :: t' := by
    cases htr : t.reverse with
    | nil => exact absurd (by simpa using congrArg List.reverse htr) htne
    | cons a b => exact ⟨a, b, rfl⟩
  have hcws : c.isWhitespace = false := by
    refine dropWhile_head_false (l := d.reverse) (r := t' ++ [' ', '#']) ?_
    rw [hdrop, hct]
    simp
  have hcmem : c ∈ t := by
    rw [← List.mem_reverse, hct]
    simp
  -- reconstruct the untrimmed remainder d from its reverse
  set w1 := d.reverse.takeWhile Char.isWhitespace with hw1
  have hdshape : d = '#' :: ' ' :: (t ++ w1.reverse) := by
    have : w1 ++ (t.reverse ++ [' ', '#']) = d.reverse := by
      rw [← hdrop, hw1]
      exact List.takeWhile_append_dropWhile _ _
    have hrev : d = (w1 ++ (t.reverse ++ [' ', '#'])).reverse := by
      rw [this, List.reverse_reverse]
    rw [hrev]
    simp
  cases htw : l.takeWhile Char.isWhitespace with
  | nil =>
    have hld : l = d := by
      conv_lhs => rw [← List.takeWhile_append_dropWhile (p := Char.isWhitespace) (l := l)]
      rw [htw, ← hd]
      simp
    have hstrip : stripHeading l = (' ' :: (t ++ w1.reverse)).dropWhile Char.isWhitespace := by
      rw [hld, hdshape]
      simp [stripHeading, List.takeWhile_cons]
    unfold headingTitle
    rw [hstrip]
    intro hnil
    rw [jsTrim_eq_nil_iff] at hnil
    have hcrest : c ∈ (' ' :: (t ++ w1.reverse)).dropWhile Char.isWhitespace := by
      have hcin : c ∈ (' ' :: (t ++ w1.reverse)) := by simp [hcmem]
      rw [← List.takeWhile_append_dropWhile
        (p := Char.isWhitespace) (l := ' ' :: (t ++ w1.reverse)), List.mem_append] at hcin
      rcases hcin with hcin | hcin
      · exact absurd (List.mem_takeWhile_imp hcin) (by simp [hcws])
      · exact hcin
    rw [hnil c hcrest] at hcws
    simp at hcws
  | cons w ws' =>
    have hwmem : w ∈ l.takeWhile Char.isWhitespace := by rw [htw]; simp
    have hwws : w.isWhitespace = true := List.mem_takeWhile_imp hwmem
    have hlw : l = w :: (ws' ++ d) := by
      conv_lhs => rw [← List.takeWhile_append_dropWhile (p := Char.isWhitespace) (l := l)]
      rw [htw, ← hd]
      simp
    have hwne : w ≠ '#' := by
      intro hw
      rw [hw] at hwws
      simp at hwws
    have hstrip : stripHeading l = l := by
      rw [hlw]
      simp [stripHeading, hwne]
    unfold headingTitle
    rw [hstrip, ht]
    simp

/-- The `chapters` accumulator of the splitting loop is only ever appended to:
an initial accumulator is a prefix of the final one. -/
lemma foldl_chapterStep_chapters (ls : List Str) :
    ∀ (ch : List (Str × Str)) (t : Str) (cl : List Str) (b : Bool),
      ls.foldl chapterStep ⟨ch, t, cl, b⟩ =
        let st := ls.foldl chapterStep ⟨[], t, cl, b⟩
        ⟨ch ++ st.chapters, st.currentTitle, st.currentLines, st.isImplicit⟩ := by
  induction ls with
  | nil => intro ch t cl b; simp
  | cons l ls ih =>
    intro ch t cl b
    simp only [List.foldl_cons]
    by_cases h : headingMark l
    · by_cases hc : t ≠ [] ∧ (cl ≠ [] ∨ b = false)
      · have h1 : chapterStep ⟨ch, t, cl, b⟩ l =
            ⟨ch ++ [(t, List.intercalate (str "\n") cl)], headingTitle l, [], false⟩ := by
          simp [chapterStep, h, hc]
        have h2 : chapterStep ⟨[], t, cl, b⟩ l =
            ⟨[(t, List.intercalate (str "\n") cl)], headingTitle l, [], false⟩ := by
          simp [chapterStep, h, hc]
        rw [h1, h2, ih (ch ++ [(t, List.intercalate (str "\n") cl)]),
          ih [(t, List.intercalate (str "\n") cl)]]
        simp
      · have h1 : chapterStep ⟨ch, t, cl, b⟩ l = ⟨ch, headingTitle l, [], false⟩ := by
          simp [chapterStep, h, hc]
        have h2 : chapterStep ⟨[], t, cl, b⟩ l = ⟨[], headingTitle l, [], false⟩ := by
          simp [chapterStep, h, hc]
        rw [h1, h2]
        exact ih ch (headingTitle l) [] false
    · have h1 : chapterStep ⟨ch, t, cl, b⟩ l = ⟨ch, t, cl ++ [l], b⟩ := by
        simp [chapterStep, h]
      have h2 : chapterStep ⟨[], t, cl, b⟩ l = ⟨[], t, cl ++ [l], b⟩ := by
        simp [chapterStep, h]
      rw [h1, h2]
      exact ih ch t (cl ++ [l]) b

/-- Once a non-implicit chapter with nonempty title is current and no chapter
has been emitted yet, the first emitted chapter (if any) carries that title. -/
lemma first_chapter_title (ls : List Str) :
    ∀ (t : Str) (cl : List Str), t ≠ [] → ∀ c : Str × Str,
      (finalizeChapters (ls.foldl chapterStep ⟨[], t, cl, false⟩)).head? = some c →
      c.1 = t := by
  induction ls with
  | nil =>
    intro t cl ht c hc
    simp only [List.foldl_nil] at hc
    unfold finalizeChapters at hc
    split at hc
    · simp at hc
      exact congrArg Prod.fst hc.symm
    · simp at hc
  | cons l ls ih =>
    intro t cl ht c hc
    by_cases h : headingMark l
    · have hstep : chapterStep ⟨[], t, cl, false⟩ l =
          ⟨[(t, List.intercalate (str "\n") cl)], headingTitle l, [], false⟩ := by
        simp [chapterStep, h, ht]
      rw [List.foldl_cons, hstep, foldl_chapterStep_chapters] at hc
      unfold finalizeChapters at hc
      split at hc <;> simp at hc <;> exact congrArg Prod.fst hc.symm
    · have hstep : chapterStep ⟨[], t, cl, false⟩ l = ⟨[], t, cl ++ [l], false⟩ := by
        simp [chapterStep, h]
      rw [List.foldl_cons, hstep] at hc
      exact ih t (cl ++ [l]) ht c hc

/-- Claim C4 (counterexample): in a document whose first non-blank line is a
heading but is preceded by a blank line, the splitter does emit an implicit
"Introduction" chapter, and the first output chapter is not the heading's. -/
theorem c4_counterexample :
    splitChaptersOf (str "\n# A\nbody") =
      [(str "Introduction", str ""), (str "A", str "body")] ∧
    (splitChaptersOf (str "\n# A\nbody")).head? = some (str "Introduction", str "") ∧
    str "Introduction" ≠ str "A" := by
  refine ⟨by decide, by decide, by decide⟩

/-- Claim C4 (amended): for every input document whose very first line is a
level-1 heading, the chapter splitter emits no implicit chapter titled
"Introduction": the first chapter of its output (when one exists) is the one
introduced by that heading.  (If blank lines precede the first heading, an
implicit "Introduction" chapter is emitted first — see the counterexample.) -/
theorem c4_first_line_heading (l : Str) (ls : List Str) (h : headingMark l = true)
    (c : Str × Str) (hc : (splitChapters (l :: ls)).head? = some c) :
    c.1 = headingTitle l := by
  unfold splitChapters at hc
  have hinit : splitInit (l :: ls) = ⟨[], [], [], false⟩ := by simp [splitInit, h]
  have hstep : chapterStep ⟨[], [], [], false⟩ l = ⟨[], headingTitle l, [], false⟩ := by
    simp [chapterStep, h]
  rw [hinit, List.foldl_cons, hstep] at hc
  exact first_chapter_title ls (headingTitle l) [] (headingTitle_ne_nil h) c hc

/-- Claim C4 (witness): the amended theorem applied to a concrete document
starting with the heading line "# A". -/
theorem c4_witness : (str "A" : Str) = headingTitle (str "# A") := by
  have h := c4_first_line_heading (str "# A") [str "body"] (by decide)
    (str "A", str "body") (by decide)
  exact h

/-! ## Quiz builder (buildQuizObject, lines 405-455)

The per-line scanning loop of `buildQuizObject`: a `?` line opens a new
question (pushing the previous one), a `*` line prepends (`unshift`) its text
to the open question's answers, a `-` line appends its text, and every other
line is ignored. -/

structure SingleChoice where
  question : Str
  answers : List Str
deriving DecidableEq

/-- `trimmed.startsWith('?')` on the trimmed line. -/
def qMark (line : Str) : Bool := (str "?").isPrefixOf (jsTrim line)

/-- `trimmed.startsWith('*')` on the trimmed line. -/
def starMark (line : Str) : Bool := (str "*").isPrefixOf (jsTrim line)

/-- `trimmed.startsWith('-')` on the trimmed line. -/
def dashMark (line : Str) : Bool := (str "-").isPrefixOf (jsTrim line)

/-- `trimmed.substring(1).trim()`: the text after a `?`, `*` or `-` marker. -/
def tagText (line : Str) : Str := jsTrim ((jsTrim line).drop 1)

/-- `if (currentChoice) choices.push(currentChoice)`. -/
def pushCurrent (choices : List SingleChoice) (current : Option SingleChoice) :
    List SingleChoice :=
  match current with
  | some c => choices ++ [c]
  | none => choices

/-- One iteration of the `for (const line of lines)` loop of `buildQuizObject`. -/
def quizStep (st : List SingleChoice × Option SingleChoice) (line : Str) :
    List SingleChoice × Option SingleChoice :=
  if qMark line then
    (pushCurrent st.1 st.2, some ⟨tagText line, []⟩)
  else
    match st.2 with
    | none => st
    | some c =>
      if starMark line then (st.1, some ⟨c.question, tagText line :: c.answers⟩)
      else if dashMark line then (st.1, some ⟨c.question, c.answers ++ [tagText line]⟩)
      else st

/-- Run the quiz loop from a given state and push the final open question. -/
def runQuiz (st0 : List SingleChoice × Option SingleChoice) (lines : List Str) :
    List SingleChoice :=
  let st := lines.foldl quizStep st0
  pushCurrent st.1 st.2

/-- The `choices` list built by `buildQuizObject` from a quiz block's lines. -/
def quizChoices (lines : List Str) : List SingleChoice := runQuiz ([], none) lines

example : quizChoices [str "? Q", str "* Yes", str "- No"] =
    [⟨str "Q", [str "Yes", str "No"]⟩] := by decide

/-! Specification-side description of the same loop: split the block into
question groups and build each group's answer list from its `*` and `-`
lines. -/

/-- Texts of the `*`-marked lines of a question body, in source order. -/
def starTexts (lines : List Str) : List Str := (lines.filter starMark).map tagText

/-- Texts of the `-`-marked lines of a question body, in source order. -/
def dashTexts (lines : List Str) : List Str :=
  (lines.filter (fun l => !starMark l && dashMark l)).map tagText

/-- The answer list the loop produces for one question group. -/
def buildChoice (g : Str × List Str) : SingleChoice :=
  ⟨tagText g.1, (starTexts g.2).reverse ++ dashTexts g.2⟩

/-- Collect the body of an open question (first argument pair) until the next
`?` line, then continue with the following groups. -/
def qSplitAux : Str → List Str → List Str → List (Str × List Str)
  | q, acc, [] => [(q, acc)]
  | q, acc, l :: rest =>
    if qMark l then (q, acc) :: qSplitAux l [] rest
    else qSplitAux q (acc ++ [l]) rest

/-- Split a quiz block into its `?`-question groups; lines before the first
`?` line belong to no group. -/
def qSplit : List Str → List (Str × List Str)
  | [] => []
  | l :: rest => if qMark l then qSplitAux l [] rest else qSplit rest

/-! Quiz lemmas. -/

lemma mark_head {c : Char} {line : Str} (h : ([c].isPrefixOf (jsTrim line)) = true) :
    ∃ t, jsTrim line = c :: t := by
  rw [List.isPrefixOf_iff_prefix] at h
  obtain ⟨t, ht⟩ := h
  exact ⟨t, ht.symm⟩

lemma isPrefixOf_single_cons (c d : Char) (t : Str) :
    ([c].isPrefixOf (d :: t)) = (c == d) := by
  simp [List.isPrefixOf]

lemma starMark_exclusive {line : Str} (h : starMark line = true) :
    qMark line = false ∧ dashMark line = false := by
  obtain ⟨t, ht⟩ := mark_head (c := '*') h
  unfold qMark dashMark
  rw [show (str "?") = ['?'] from rfl, show (str "-") = ['-'] from rfl, ht,
    isPrefixOf_single_cons, isPrefixOf_single_cons]
  exact ⟨by decide, by decide⟩

lemma dashMark_exclusive {line : Str} (h : dashMark line = true) :
    qMark line = false ∧ starMark line = false := by
  obtain ⟨t, ht⟩ := mark_head (c := '-') h
  unfold qMark starMark
  rw [show (str "?") = ['?'] from rfl, show (str "*") = ['*'] from rfl, ht,
    isPrefixOf_single_cons, isPrefixOf_single_cons]
  exact ⟨by decide, by decide⟩

lemma starTexts_nil : starTexts [] = [] := rfl

lemma dashTexts_nil : dashTexts [] = [] := rfl

lemma starTexts_append (a b : List Str) :
    starTexts (a ++ b) = starTexts a ++ starTexts b := by
  simp [starTexts, List.filter_append]

lemma dashTexts_append (a b : List Str) :
    dashTexts (a ++ b) = dashTexts a ++ dashTexts b := by
  simp [dashTexts, List.filter_append]

lemma starTexts_cons (l : Str) (ls : List Str) :
    starTexts (l :: ls) = if starMark l then tagText l :: starTexts ls else starTexts ls := by
  by_cases h : starMark l <;> simp [starTexts, List.filter_cons, h]

lemma dashTexts_cons (l : Str) (ls : List Str) :
    dashTexts (l :: ls) =
      if !starMark l && dashMark l then tagText l :: dashTexts ls else dashTexts ls := by
  by_cases h : (!starMark l && dashMark l) <;> simp [dashTexts, List.filter_cons, h]

lemma runQuiz_cons (st0 : List SingleChoice × Option SingleChoice) (l : Str)
    (ls : List Str) : runQuiz st0 (l :: ls) = runQuiz (quizStep st0 l) ls := by
  simp [runQuiz]

/-- Running the loop with an open question over its body accumulates exactly
the reversed `*` texts in front of the `-` texts. -/
lemma runQuiz_open (rest : List Str) :
    ∀ (cs : List SingleChoice) (q : Str) (acc : List Str),
      runQuiz (cs, some ⟨tagText q, (starTexts acc).reverse ++ dashTexts acc⟩) rest =
        cs ++ (qSplitAux q acc rest).map buildChoice := by
  induction rest with
  | nil =>
    intro cs q acc
    simp [runQuiz, pushCurrent, buildChoice, qSplitAux]
  | cons l rest ih =>
    intro cs q acc
    rw [runQuiz_cons]
    by_cases hq : qMark l
    · have hstep : quizStep (cs, some ⟨tagText q, (starTexts acc).reverse ++ dashTexts acc⟩) l
          = (cs ++ [buildChoice (q, acc)], some ⟨tagText l, []⟩) := by
        simp [quizStep, hq, pushCurrent, buildChoice]
      rw [hstep,
        show (⟨tagText l, []⟩ : SingleChoice)
            = ⟨tagText l, (starTexts []).reverse ++ dashTexts []⟩ from by
          simp [starTexts_nil, dashTexts_nil],
        ih]
      simp [qSplitAux, hq]
    · by_cases hs : starMark l
      · have hstep : quizStep (cs, some ⟨tagText q, (starTexts acc).reverse ++ dashTexts acc⟩) l
            = (cs, some ⟨tagText q,
                (starTexts (acc ++ [l])).reverse ++ dashTexts (acc ++ [l])⟩) := by
          simp [quizStep, hq, hs, starTexts_append, dashTexts_append, starTexts_cons,
            dashTexts_cons, starTexts_nil, dashTexts_nil]
        rw [hstep, ih]
        simp [qSplitAux, hq]
      · by_cases hd : dashMark l
        · have hstep : quizStep (cs, some ⟨tagText q, (starTexts acc).reverse ++ dashTexts acc⟩) l
              = (cs, some ⟨tagText q,
                  (starTexts (acc ++ [l])).reverse ++ dashTexts (acc ++ [l])⟩) := by
            simp [quizStep, hq, hs, hd, starTexts_append, dashTexts_append, starTexts_cons,
              dashTexts_cons, starTexts_nil, dashTexts_nil]
          rw [hstep, ih]
          simp [qSplitAux, hq]
        · have hstep : quizStep (cs, some ⟨tagText q, (starTexts acc).reverse ++ dashTexts acc⟩) l
              = (cs, some ⟨tagText q,
                  (starTexts (acc ++ [l])).reverse ++ dashTexts (acc ++ [l])⟩) := by
            simp [quizStep, hq, hs, hd, starTexts_append, dashTexts_append, starTexts_cons,
              dashTexts_cons, starTexts_nil, dashTexts_nil]
          rw [hstep, ih]
          simp [qSplitAux, hq]

/-- Running the loop with no open question ignores lines until the first `?`
line and then produces exactly the per-group answer lists. -/
lemma runQuiz_closed (lines : List Str) :
    ∀ cs : List SingleChoice,
      runQuiz (cs, none) lines = cs ++ (qSplit lines).map buildChoice := by
  induction lines with
  | nil => intro cs; simp [runQuiz, pushCurrent, qSplit]
  | cons l rest ih =>
    intro cs
    rw [runQuiz_cons]
    by_cases hq : qMark l
    · have hstep : quizStep (cs, none) l = (cs, some ⟨tagText l, []⟩) := by
        simp [quizStep, hq, pushCurrent]
      rw [hstep,
        show (⟨tagText l, []⟩ : SingleChoice)
            = ⟨tagText l, (starTexts []).reverse ++ dashTexts []⟩ from by
          simp [starTexts_nil, dashTexts_nil],
        runQuiz_open]
      simp [qSplit, hq]
    · have hstep : quizStep (cs, none) l = (cs, none) := by
        simp [quizStep, hq]
      rw [hstep, ih]
      simp [qSplit, hq]

/-- The choices list built by the loop is exactly the per-group build. -/
lemma quizChoices_eq_groups (lines : List Str) :
    quizChoices lines = (qSplit lines).map buildChoice := by
  have h := runQuiz_closed lines []
  simpa [quizChoices] using h

lemma qSplitAux_no_q (rest : List Str) :
    ∀ (q : Str) (acc : List Str), (∀ l ∈ rest, qMark l = false) →
      qSplitAux q acc rest = [(q, acc ++ rest)] := by
  induction rest with
  | nil => intro q acc _; simp [qSplitAux]
  | cons l rest ih =>
    intro q acc h
    have hl : qMark l = false := h l (by simp)
    rw [qSplitAux, if_neg (by simp [hl]), ih q (acc ++ [l]) (fun x hx => h x (by simp [hx]))]
    simp

lemma texts_all_dash (ls : List Str) (h : ∀ l ∈ ls, dashMark l = true) :
    starTexts ls = [] ∧ dashTexts ls = ls.map tagText := by
  induction ls with
  | nil => exact ⟨rfl, rfl⟩
  | cons l ls ih =>
    have hl : dashMark l = true := h l (by simp)
    have hs : starMark l = false := (dashMark_exclusive hl).2
    obtain ⟨h1, h2⟩ := ih (fun x hx => h x (by simp [hx]))
    refine ⟨?_, ?_⟩
    · rw [starTexts_cons, if_neg (by simp [hs]), h1]
    · rw [dashTexts_cons, if_pos (by simp [hs, hl]), h2]
      simp

/-- A step of the quiz loop on a line carrying none of the three markers
leaves the loop state untouched, whatever that state is. -/
lemma quizStep_neutral {l : Str} (hq : qMark l = false) (hs : starMark l = false)
    (hd : dashMark l = false) (st : List SingleChoice × Option SingleChoice) :
    quizStep st l = st := by
  obtain ⟨cs, cur⟩ := st
  cases cur <;> simp [quizStep, hq, hs, hd]

/-- Lines before any `?` line leave a question-less loop state untouched. -/
lemma quiz_fold_skip (pre : List Str) :
    ∀ cs : List SingleChoice, (∀ l ∈ pre, qMark l = false) →
      pre.foldl quizStep (cs, none) = (cs, none) := by
  induction pre with
  | nil => intro cs _; simp
  | cons l pre ih =>
    intro cs h
    have hl : qMark l = false := h l (by simp)
    rw [List.foldl_cons, show quizStep (cs, none) l = (cs, none) from by simp [quizStep, hl]]
    exact ih cs (fun x hx => h x (by simp [hx]))

/-- Claim C2 (counterexample): in a question with two `*`-marked lines, the
element at index 0 of the built answers list is the text of the second
(last) `*` line, not the first. -/
theorem c2_counterexample :
    quizChoices [str "? Q", str "* First", str "* Second"] =
      [⟨str "Q", [str "Second", str "First"]⟩] ∧
    str "Second" ≠ str "First" := by
  refine ⟨by decide, by decide⟩

/-- Claim C2 (amended): for every quiz block in which one question (opened by
a `?` line) contains two or more `*`-marked answer lines, the element at
index 0 of that question's built answers list is the text of the **last**
`*`-marked line in source order (each `*` line is prepended, so the latest
prepend wins). -/
theorem c2_first_answer_is_last_star (lines : List Str) (i : Nat) (g : Str × List Str)
    (hg : (qSplit lines)[i]? = some g) (hstars : 2 ≤ (starTexts g.2).length) :
    (quizChoices lines)[i]? = some (buildChoice g) ∧
    (buildChoice g).answers.head? = (starTexts g.2).getLast? := by
  constructor
  · rw [quizChoices_eq_groups, List.getElem?_map, hg]
    rfl
  · have hne : starTexts g.2 ≠ [] := by
      intro h0
      rw [h0] at hstars
      simp at hstars
    show ((starTexts g.2).reverse ++ dashTexts g.2).head? = (starTexts g.2).getLast?
    rw [List.head?_append, List.head?_reverse]
    cases hlast : (starTexts g.2).getLast? with
    | none => exact absurd (List.getLast?_eq_none_iff.mp hlast) hne
    | some a => rfl

/-- Claim C2 (witness): the amended theorem at the concrete block
`["? Q", "* First", "* Second"]`, whose first question group holds two `*`
lines. -/
theorem c2_witness :
    (quizChoices [str "? Q", str "* First", str "* Second"])[0]? =
      some (buildChoice (str "? Q", [str "* First", str "* Second"])) ∧
    (buildChoice (str "? Q", [str "* First", str "* Second"])).answers.head? =
      (starTexts [str "* First", str "* Second"]).getLast? := by
  exact c2_first_answer_is_last_star [str "? Q", str "* First", str "* Second"] 0
    (str "? Q", [str "* First", str "* Second"]) (by decide) (by decide)

/-- Claim C5: a quiz block with one `?` line followed by exactly one `*` line
and three `-` lines (the `*` line at any position among the four answer
lines, here split as `pre ++ star :: post`) builds a single question whose
answers list has length 4, carries the `*` line's text at index 0, and lists
the three `-` texts after it in source order. -/
theorem c5_single_star_first (q s : Str) (pre post : List Str)
    (hq : qMark q = true) (hs : starMark s = true)
    (hpre : ∀ l ∈ pre, dashMark l = true) (hpost : ∀ l ∈ post, dashMark l = true)
    (hlen : pre.length + post.length = 3) :
    quizChoices (q :: (pre ++ s :: post)) =
      [⟨tagText q, tagText s :: (pre ++ post).map tagText⟩] ∧
    (tagText s :: (pre ++ post).map tagText).length = 4 := by
  have hrestq : ∀ l ∈ pre ++ s :: post, qMark l = false := by
    intro l hl
    rcases List.mem_append.mp hl with h | h
    · exact (dashMark_exclusive (hpre l h)).1
    · rcases List.mem_cons.mp h with rfl | h
      · exact (starMark_exclusive hs).1
      · exact (dashMark_exclusive (hpost l h)).1
  constructor
  · rw [quizChoices_eq_groups]
    have h1 : qSplit (q :: (pre ++ s :: post)) = [(q, pre ++ s :: post)] := by
      rw [qSplit, if_pos hq, qSplitAux_no_q _ q [] hrestq]
      simp
    rw [h1]
    obtain ⟨hpre_star, hpre_dash⟩ := texts_all_dash pre hpre
    obtain ⟨hpost_star, hpost_dash⟩ := texts_all_dash post hpost
    simp [buildChoice, starTexts_append, dashTexts_append, starTexts_cons, dashTexts_cons,
      hpre_star, hpre_dash, hpost_star, hpost_dash, hs, (starMark_exclusive hs).2]
  · simp [List.length_map, List.length_append, hlen]

/-- Claim C5 (witness): the theorem at the concrete block
`["? Q", "* Yes", "- A", "- B", "- C"]`. -/
theorem c5_witness :
    quizChoices [str "? Q", str "* Yes", str "- A", str "- B", str "- C"] =
      [⟨str "Q", [str "Yes", str "A", str "B", str "C"]⟩] := by
  have h := c5_single_star_first (str "? Q") (str "* Yes") []
    [str "- A", str "- B", str "- C"] (by decide) (by decide) (by decide) (by decide)
    (by decide)
  exact (by decide : quizChoices [str "? Q", str "* Yes", str "- A", str "- B", str "- C"] =
      quizChoices (str "? Q" :: ([] ++ str "* Yes" :: [str "- A", str "- B", str "- C"]))).trans
    (h.1.trans (by decide))

/-- Claim C10: lines of a quiz block that appear before the first `?` line
contribute nothing to the built quiz object (first conjunct), and a line
inside a question whose trimmed text starts with none of `*`, `-`, `?` also
contributes nothing, wherever it stands (second conjunct); the builder never
fails on such lines — it is a total function. -/
theorem c10_inert_lines :
    (∀ pre rest : List Str, (∀ l ∈ pre, qMark l = false) →
      quizChoices (pre ++ rest) = quizChoices rest) ∧
    (∀ (pre post : List Str) (l : Str), qMark l = false → starMark l = false →
      dashMark l = false → quizChoices (pre ++ l :: post) = quizChoices (pre ++ post)) := by
  constructor
  · intro pre rest h
    unfold quizChoices runQuiz
    rw [List.foldl_append, quiz_fold_skip pre [] h]
  · intro pre post l hq hs hd
    unfold quizChoices runQuiz
    rw [List.foldl_append, List.foldl_cons, quizStep_neutral hq hs hd, ← List.foldl_append]

/-- Claim C10 (witness): the theorem at concrete blocks — a pre-question junk
line and an in-question plain line are both dropped. -/
theorem c10_witness :
    quizChoices [str "junk", str "? Q", str "* A"] = quizChoices [str "? Q", str "* A"] ∧
    quizChoices [str "? Q", str "note", str "* A"] = quizChoices [str "? Q", str "* A"] := by
  constructor
  · exact c10_inert_lines.1 [str "junk"] [str "? Q", str "* A"] (by decide)
  · exact c10_inert_lines.2 [str "? Q"] [str "* A"] (str "note") (by decide) (by decide)
      (by decide)

/-! ## Segmentation parser (parseChapterSegments, lines 554-596) -/

inductive BlockType where
  | text
  | accordion
  | quiz
  | image
  | video
  | fill
  | drag
deriving DecidableEq

structure ContentBlock where
  type : BlockType
  lines : List Str
deriving DecidableEq

/-- The tail after the first occurrence of the two-character sequence `](`
in a string, if there is one. -/
def afterSub : Str → Option Str
  | ']' :: '(' :: rest => some rest
  | _ :: rest => afterSub rest
  | [] => none

/-- `imageRegex = /^!\[(.*?)\]\((.*?)\)/`, used via `.test(trimmed)`: the
string must start with `![` and contain, after that, a `](` followed later by
a `)`.  (Split chapter lines never contain a newline, so the regex dot's
no-newline restriction is vacuous on the parser's inputs.) -/
def isImageLine (s : Str) : Bool :=
  (str "![").isPrefixOf s &&
    (match afterSub (s.drop 2) with
     | some tail => tail.contains ')'
     | none => false)

example : isImageLine (str "![alt](path)") = true := by decide
example : isImageLine (str "![alt](path") = false := by decide
example : isImageLine (str "[alt](path)") = false := by decide

/-- The mutable state of `parseChapterSegments`: emitted blocks, the current
accumulator and the current block kind. -/
structure SegState where
  blocks : List ContentBlock
  currentLines : List Str
  currentType : BlockType
deriving DecidableEq

/-- The `flush` closure of `parseChapterSegments` (lines 562-571): emit the
current block when it is non-trivial, then start a block of the new kind. -/
def segFlush (st : SegState) (newType : BlockType) : SegState :=
  ⟨if st.currentLines ≠ [] ∧
      (st.currentType ≠ BlockType.text ∨
        st.currentLines.any (fun l => !(jsTrim l).isEmpty)) then
    st.blocks ++ [⟨st.currentType, st.currentLines⟩]
  else st.blocks, [], newType⟩

/-- One iteration of the `for (const line of lines)` loop (lines 575-592). -/
def segStep (st : SegState) (line : Str) : SegState :=
  if jsTrim line = str "[ACCORDION]" then segFlush st BlockType.accordion
  else if jsTrim line = str "[QUIZ]" then segFlush st BlockType.quiz
  else if jsTrim line = str "[VIDEO]" then segFlush st BlockType.video
  else if jsTrim line = str "[FILL]" then segFlush st BlockType.fill
  else if jsTrim line = str "[DRAG]" then segFlush st BlockType.drag
  else if jsTrim line = str "[TEXT]" then segFlush st BlockType.text
  else if isImageLine (jsTrim line) ∧ st.currentType = BlockType.text then
    ⟨(segFlush st BlockType.text).blocks ++ [⟨BlockType.image, [jsTrim line]⟩], [],
      BlockType.text⟩
  else { st with currentLines := st.currentLines ++ [line] }

/-- `parseChapterSegments`: normalise, split into lines, run the loop, flush. -/
def parseChapterSegments (markdown : Str) : List ContentBlock :=
  let lines := splitOnChar '\n' (normalizeChars markdown)
  (segFlush (lines.foldl segStep ⟨[], [], BlockType.text⟩) BlockType.text).blocks

example : parseChapterSegments (str "Hello\n[QUIZ]\n? Q") =
    [⟨BlockType.text, [str "Hello"]⟩, ⟨BlockType.quiz, [str "? Q"]⟩] := by decide
example : parseChapterSegments (str "a\n![x](y)\nb") =
    [⟨BlockType.text, [str "a"]⟩, ⟨BlockType.image, [str "![x](y)"]⟩,
      ⟨BlockType.text, [str "b"]⟩] := by decide
example : parseChapterSegments (str "[QUIZ]\n![x](y)\n? Q") =
    [⟨BlockType.quiz, [str "![x](y)", str "? Q"]⟩] := by decide

/-! ## Segmentation lemmas -/

lemma isImageLine_shape {s : Str} (h : isImageLine s = true) :
    ∃ t, s = '!' :: '[' :: t := by
  unfold isImageLine at h
  have h1 : (str "![").isPrefixOf s = true := (Bool.and_eq_true _ _).mp h |>.1
  rw [List.isPrefixOf_iff_prefix] at h1
  obtain ⟨t, ht⟩ := h1
  exact ⟨t, ht.symm⟩

/-- An image line never trim-equals one of the six sentinel tags: the tags
start with `[`, an image line with `!`. -/
lemma isImageLine_ne_tags {s : Str} (h : isImageLine s = true) :
    s ≠ str "[ACCORDION]" ∧ s ≠ str "[QUIZ]" ∧ s ≠ str "[VIDEO]" ∧
    s ≠ str "[FILL]" ∧ s ≠ str "[DRAG]" ∧ s ≠ str "[TEXT]" := by
  obtain ⟨t, rfl⟩ := isImageLine_shape h
  refine ⟨?_, ?_, ?_, ?_, ?_, ?_⟩ <;>
    · intro hcontra
      injection hcontra with h1 _
      exact absurd h1 (by decide)

/-- Claim C7: while the current kind is `text`, a line whose trimmed form
matches the image regex makes the parser flush the current text block, emit a
standalone one-line `image` block holding the trimmed line, and resume with a
fresh empty `text` accumulator (first conjunct); while the current kind is not
`text`, the same line is simply appended to the current block's lines and no
image block is produced (second conjunct). -/
theorem c7_image_line_behaviour (st : SegState) (line : Str) (_hnl : ('\n') ∉ line) :
    (st.currentType = BlockType.text → isImageLine (jsTrim line) = true →
      segStep st line =
        ⟨(segFlush st BlockType.text).blocks ++ [⟨BlockType.image, [jsTrim line]⟩], [],
          BlockType.text⟩) ∧
    (st.currentType ≠ BlockType.text → isImageLine (jsTrim line) = true →
      segStep st line = { st with currentLines := st.currentLines ++ [line] }) := by
  constructor
  · intro hty himg
    obtain ⟨h1, h2, h3, h4, h5, h6⟩ := isImageLine_ne_tags himg
    unfold segStep
    rw [if_neg h1, if_neg h2, if_neg h3, if_neg h4, if_neg h5, if_neg h6,
      if_pos ⟨himg, hty⟩]
  · intro hty himg
    obtain ⟨h1, h2, h3, h4, h5, h6⟩ := isImageLine_ne_tags himg
    unfold segStep
    rw [if_neg h1, if_neg h2, if_neg h3, if_neg h4, if_neg h5, if_neg h6,
      if_neg (by simp [hty])]

/-- Claim C7 (witness): the theorem at a concrete text-mode state and a
concrete quiz-mode state. -/
theorem c7_witness :
    segStep ⟨[], [str "hello"], BlockType.text⟩ (str "![a](b.png)") =
      ⟨(segFlush ⟨[], [str "hello"], BlockType.text⟩ BlockType.text).blocks ++
        [⟨BlockType.image, [jsTrim (str "![a](b.png)")]⟩], [], BlockType.text⟩ ∧
    segStep ⟨[], [str "x"], BlockType.quiz⟩ (str "![a](b.png)") =
      ⟨[], [str "x", str "![a](b.png)"], BlockType.quiz⟩ := by
  constructor
  · exact (c7_image_line_behaviour ⟨[], [str "hello"], BlockType.text⟩ (str "![a](b.png)")
      (by decide)).1 rfl (by decide)
  · have h := (c7_image_line_behaviour ⟨[], [str "x"], BlockType.quiz⟩ (str "![a](b.png)")
      (by decide)).2 (by decide) (by decide)
    exact h.trans (by decide)

/-- Invariant of claim C9: a `text` block holds a line with non-blank trim. -/
def TextOkBlock (b : ContentBlock) : Prop :=
  b.type = BlockType.text → b.lines.any (fun l => !(jsTrim l).isEmpty) = true

lemma segFlush_blocks (st : SegState) (k : BlockType) :
    (segFlush st k).blocks =
      if st.currentLines ≠ [] ∧ (st.currentType ≠ BlockType.text ∨
          st.currentLines.any (fun l => !(jsTrim l).isEmpty)) then
        st.blocks ++ [⟨st.currentType, st.currentLines⟩]
      else st.blocks := rfl

lemma segFlush_textok {st : SegState} (h : ∀ b ∈ st.blocks, TextOkBlock b)
    (k : BlockType) : ∀ b ∈ (segFlush st k).blocks, TextOkBlock b := by
  intro b hb
  rw [segFlush_blocks] at hb
  split at hb
  case isTrue hcond =>
    rcases List.mem_append.mp hb with hmem | hmem
    · exact h b hmem
    · have hb2 : b = ⟨st.currentType, st.currentLines⟩ := by simpa using hmem
      subst hb2
      intro hbt
      rcases hcond.2 with hct | hany
      · exact absurd hbt hct
      · exact hany
  case isFalse => exact h b hb

lemma segStep_textok {st : SegState} (h : ∀ b ∈ st.blocks, TextOkBlock b)
    (line : Str) : ∀ b ∈ (segStep st line).blocks, TextOkBlock b := by
  intro b hb
  unfold segStep at hb
  split at hb
  · exact segFlush_textok h _ b hb
  split at hb
  · exact segFlush_textok h _ b hb
  split at hb
  · exact segFlush_textok h _ b hb
  split at hb
  · exact segFlush_textok h _ b hb
  split at hb
  · exact segFlush_textok h _ b hb
  split at hb
  · exact segFlush_textok h _ b hb
  split at hb
  · have hb2 : b ∈ (segFlush st BlockType.text).blocks ++
        [⟨BlockType.image, [jsTrim line]⟩] := hb
    rcases List.mem_append.mp hb2 with hmem | hmem
    · exact segFlush_textok h BlockType.text b hmem
    · have hb3 : b = ⟨BlockType.image, [jsTrim line]⟩ := by simpa using hmem
      subst hb3
      intro hbt
      simp at hbt
  · have hb2 : b ∈ st.blocks := hb
    exact h b hb2

lemma segFold_textok (lines : List Str) :
    ∀ st : SegState, (∀ b ∈ st.blocks, TextOkBlock b) →
      ∀ b ∈ (lines.foldl segStep st).blocks, TextOkBlock b := by
  induction lines with
  | nil => intro st h; simpa using h
  | cons l lines ih =>
    intro st h
    rw [List.foldl_cons]
    exact ih _ (segStep_textok h l)

/-- Claim C9: the block sequence returned by the segmentation parser contains
no `text` block whose lines are all blank after trimming — every emitted text
block has at least one line with non-blank trim. -/
theorem c9_no_blank_text_blocks (markdown : Str) (b : ContentBlock)
    (hb : b ∈ parseChapterSegments markdown) (ht : b.type = BlockType.text) :
    b.lines.any (fun l => !(jsTrim l).isEmpty) = true := by
  have hinit : ∀ b0 ∈ (⟨[], [], BlockType.text⟩ : SegState).blocks, TextOkBlock b0 := by
    intro b0 hb0
    simp at hb0
  have hfold := segFold_textok (splitOnChar '\n' (normalizeChars markdown))
    ⟨[], [], BlockType.text⟩ hinit
  exact segFlush_textok hfold BlockType.text b hb ht

/-- Claim C9 (witness): the theorem at the one-line chapter body "hi", whose
single parsed block is a text block. -/
theorem c9_witness : ([str "hi"] : List Str).any (fun l => !(jsTrim l).isEmpty) = true := by
  exact c9_no_blank_text_blocks (str "hi") ⟨BlockType.text, [str "hi"]⟩ (by decide) rfl

/-! ## Accordion builder (buildAccordionObject, lines 358-403) -/

structure AccordionPanel where
  title : Str
  markdownLines : List Str
deriving DecidableEq

/-- `line.trim().startsWith('+++')`. -/
def isPanelMarker (line : Str) : Bool := (str "+++").isPrefixOf (jsTrim line)

/-- `line.replace(/^\+{3,}\s*/, '')`: strip three-or-more leading plus signs
and the following whitespace run from the raw (untrimmed) line; if the regex
does not match, keep the line. -/
def stripPanelMarker (line : Str) : Str :=
  if 3 ≤ (line.takeWhile (fun c => c = '+')).length then
    (line.dropWhile (fun c => c = '+')).dropWhile Char.isWhitespace
  else line

/-- `line.replace(/^\+{3,}\s*/, '').trim() || "Panel"`. -/
def panelTitle (line : Str) : Str :=
  if jsTrim (stripPanelMarker line) = [] then str "Panel"
  else jsTrim (stripPanelMarker line)

/-- One iteration of the panel-splitting loop: a `+++` marker starts a new
panel; any other line is appended to the body of the open panel — the last
pushed one, which the source mutates through the `currentPanel` alias — and
is dropped when no marker has been seen yet (`currentPanel === null`). -/
def accStep (panels : List AccordionPanel) (line : Str) : List AccordionPanel :=
  if isPanelMarker line then panels ++ [⟨panelTitle line, []⟩]
  else
    match panels.getLast? with
    | none => panels
    | some p => panels.dropLast ++ [⟨p.title, p.markdownLines ++ [line]⟩]

/-- The panel list built by `buildAccordionObject` from a block's lines. -/
def accordionPanels (lines : List Str) : List AccordionPanel :=
  lines.foldl accStep []

example : accordionPanels [str "x", str "+++ T", str "body"] =
    [⟨str "T", [str "body"]⟩] := by decide

lemma accFold_no_marker_nil (ls : List Str) :
    (∀ l ∈ ls, isPanelMarker l = false) → ls.foldl accStep [] = [] := by
  induction ls with
  | nil => intro _; rfl
  | cons l ls ih =>
    intro h
    rw [List.foldl_cons,
      show accStep [] l = [] from by simp [accStep, h l (by simp)]]
    exact ih (fun x hx => h x (by simp [hx]))

lemma accFold_no_marker_open (ls : List Str) :
    ∀ (ps : List AccordionPanel) (t : Str) (acc : List Str),
      (∀ l ∈ ls, isPanelMarker l = false) →
      ls.foldl accStep (ps ++ [⟨t, acc⟩]) = ps ++ [⟨t, acc ++ ls⟩] := by
  induction ls with
  | nil => intro ps t acc _; simp
  | cons l ls ih =>
    intro ps t acc h
    have hl : isPanelMarker l = false := h l (by simp)
    rw [List.foldl_cons,
      show accStep (ps ++ [⟨t, acc⟩]) l = ps ++ [⟨t, acc ++ [l]⟩] from by
        simp [accStep, hl, List.getLast?_concat, List.dropLast_concat]]
    rw [ih ps t (acc ++ [l]) (fun x hx => h x (by simp [hx]))]
    simp

/-- Claim C8: an accordion block whose lines hold exactly two `+++` marker
lines produces exactly two panels in source order; lines before the first
marker are in no panel; each panel's body is exactly the lines after its own
marker and before the next (or the end of the block); and a marker with empty
title text after trimming yields the title "Panel". -/
theorem c8_accordion_two_panels (pre b1 b2 : List Str) (m1 m2 : Str)
    (hpre : ∀ l ∈ pre, isPanelMarker l = false) (hm1 : isPanelMarker m1 = true)
    (hb1 : ∀ l ∈ b1, isPanelMarker l = false) (hm2 : isPanelMarker m2 = true)
    (hb2 : ∀ l ∈ b2, isPanelMarker l = false) :
    accordionPanels (pre ++ m1 :: (b1 ++ m2 :: b2)) =
      [⟨panelTitle m1, b1⟩, ⟨panelTitle m2, b2⟩] ∧
    (jsTrim (stripPanelMarker m1) = [] → panelTitle m1 = str "Panel") := by
  constructor
  · unfold accordionPanels
    rw [List.foldl_append, accFold_no_marker_nil pre hpre, List.foldl_cons,
      show accStep [] m1 = [⟨panelTitle m1, []⟩] from by simp [accStep, hm1]]
    have e1 := accFold_no_marker_open b1 [] (panelTitle m1) [] hb1
    simp only [List.nil_append] at e1
    rw [List.foldl_append, e1, List.foldl_cons,
      show accStep [⟨panelTitle m1, b1⟩] m2 =
          [⟨panelTitle m1, b1⟩] ++ [⟨panelTitle m2, []⟩] from by
        simp [accStep, hm2]]
    have e2 := accFold_no_marker_open b2 [⟨panelTitle m1, b1⟩] (panelTitle m2) [] hb2
    simp only [List.nil_append] at e2
    rw [e2]
    rfl
  · intro h
    simp [panelTitle, h]

/-- Claim C8 (witness): the theorem at a concrete six-line block with a
titled marker and an untitled marker. -/
theorem c8_witness :
    accordionPanels [str "intro", str "+++ A", str "a1", str "+++", str "b1", str "b2"] =
      [⟨str "A", [str "a1"]⟩, ⟨str "Panel", [str "b1", str "b2"]⟩] := by
  have h := c8_accordion_two_panels [str "intro"] [str "a1"] [str "b1", str "b2"]
    (str "+++ A") (str "+++") (by decide) (by decide) (by decide) (by decide) (by decide)
  exact h.1.trans (by decide)

/-! ## Library version resolver (getLibVersion, lines 296-325) -/

structure H5PDependency where
  machineName : Str
  majorVersion : Nat
  minorVersion : Nat
deriving DecidableEq

def natToStr (n : Nat) : Str := (Nat.repr n).data

/-- JS `String.prototype.replace` with a plain-string pattern and an empty
replacement: remove the first occurrence of `pat`. -/
def replaceFirst : Str → Str → Str
  | [], _ => []
  | c :: rest, pat =>
    if pat.isPrefixOf (c :: rest) then (c :: rest).drop pat.length
    else c :: replaceFirst rest pat

/-- `versionPart.match(/^\d+\.\d+$/)`: one dot, digits on both sides. -/
def isVersionPattern (s : Str) : Bool :=
  let a := s.takeWhile (fun c => c != '.')
  match s.dropWhile (fun c => c != '.') with
  | '.' :: b =>
    !a.isEmpty && !b.isEmpty && a.all Char.isDigit && b.all Char.isDigit &&
      !(b.contains '.')
  | _ => false

example : isVersionPattern (str "1.0") = true := by decide
example : isVersionPattern (str "1.0.1") = false := by decide
example : isVersionPattern (str "x.0") = false := by decide
example : isVersionPattern (str "10.25") = true := by decide

/-- `getLibVersion`: resolve a library's `"Name major.minor"` string from the
manifest dependency list, else from a top-level archive folder named
`"Name-major.minor/"`, else fall back to the caller-supplied default version
(with a console warning only — never an unavailable marker). -/
def getLibVersion (zipKeys : List Str) (deps : List H5PDependency) (machineName : Str)
    (defaultVersion : Str) : Str :=
  match deps.find? (fun d => d.machineName == machineName) with
  | some dep =>
    dep.machineName ++ (str " ") ++ natToStr dep.majorVersion ++ (str ".") ++
      natToStr dep.minorVersion
  | none =>
    let pfx := machineName ++ (str "-")
    let viaFolder : Option Str :=
      match zipKeys.find? (fun p => pfx.isPrefixOf p && p.contains '/') with
      | some foundFolder =>
        let folderName := foundFolder.takeWhile (fun c => c != '/')
        let versionPart := replaceFirst folderName pfx
        if isVersionPattern versionPart then
          some (machineName ++ (str " ") ++ versionPart)
        else none
      | none => none
    match viaFolder with
    | some s => s
    | none => machineName ++ (str " ") ++ defaultVersion

/-- Substring test, JS `String.prototype.includes`. -/
def containsSub : Str → Str → Bool
  | [], pat => pat.isEmpty
  | c :: rest, pat => pat.isPrefixOf (c :: rest) || containsSub rest pat

/-- The builders' availability guard, negated: every builder refuses when its
entry is null or its version string contains "null"
(`if (!libs.x || libs.x.includes("null")) return null`). -/
def libAvailable (v : Option Str) : Bool :=
  match v with
  | none => false
  | some s => !(containsSub s (str "null"))

/-- Claim C3 (counterexample): resolving `H5P.Accordion` against an empty
manifest and an archive with no matching folder yields the concrete version
string "H5P.Accordion 1.0" (the caller-supplied default of line 717), which
passes the builders' availability guard — not an unavailable sentinel. -/
theorem c3_counterexample :
    getLibVersion [] [] (str "H5P.Accordion") (str "1.0") = str "H5P.Accordion 1.0" ∧
    libAvailable (some (getLibVersion [] [] (str "H5P.Accordion") (str "1.0"))) = true := by
  refine ⟨by decide, by decide⟩

/-- Claim C3 (amended): resolving against a manifest declaring
`H5P.Accordion 1.0` yields exactly "H5P.Accordion 1.0" (whatever the archive
listing); resolving against an empty manifest with archive folder
`H5P.Accordion-1.0/` yields the same string; and resolving when the name is
in neither place yields the caller-supplied default `"H5P.Accordion 1.0"` —
a concrete, available version string rather than an unavailable sentinel. -/
theorem c3_resolution (zipKeys : List Str) :
    getLibVersion zipKeys [⟨str "H5P.Accordion", 1, 0⟩] (str "H5P.Accordion")
        (str "1.0") = str "H5P.Accordion 1.0" ∧
    getLibVersion [str "H5P.Accordion-1.0/"] [] (str "H5P.Accordion") (str "1.0") =
      str "H5P.Accordion 1.0" ∧
    (getLibVersion [] [] (str "H5P.Accordion") (str "1.0") = str "H5P.Accordion 1.0" ∧
      libAvailable (some (getLibVersion [] [] (str "H5P.Accordion") (str "1.0"))) = true) := by
  refine ⟨?_, by decide, by decide, by decide⟩
  have hfind : List.find? (fun d : H5PDependency => d.machineName == str "H5P.Accordion")
      ([⟨str "H5P.Accordion", 1, 0⟩] : List H5PDependency) =
      some ⟨str "H5P.Accordion", 1, 0⟩ := by decide
  unfold getLibVersion
  rw [hfind]
  rfl

/-! ## Directory-entry repair (buildH5P, lines 759-777) -/

/-- One entry of the in-memory archive (`zip.files`): its path key, its
directory flag and its byte contents. -/
structure ZipEntry where
  path : Str
  dir : Bool
  data : Str
deriving DecidableEq

/-- Step 1 of the Moodle fix: `delete zip.files["content/"]`. -/
def removeContentRootEntry (entries : List ZipEntry) : List ZipEntry :=
  entries.filter (fun e => !(e.path == str "content/"))

/-- Step 2 of the Moodle fix: delete every key that starts with `content/`,
ends with `/` and is marked as a directory. -/
def removeContentDirEntries (entries : List ZipEntry) : List ZipEntry :=
  entries.filter
    (fun e =>
      !((str "content/").isPrefixOf e.path && (str "/").isSuffixOf e.path && e.dir))

/-- The full directory-entry repair pass of `buildH5P`. -/
def repairArchive (entries : List ZipEntry) : List ZipEntry :=
  removeContentDirEntries (removeContentRootEntry entries)

/-- Claim C6: under the archive library's representation invariant — an entry
whose stored path ends in the separator `/` is flagged as a directory — the
repair step leaves no entry whose path both starts with `content/` and ends
with `/`, while every file entry (`dir = false`) that was under that root
before the repair remains present as the identical record: same path, same
contents. -/
theorem c6_repair_removes_only_dir_entries (entries : List ZipEntry)
    (hinv : ∀ e ∈ entries, (str "/").isSuffixOf e.path = true → e.dir = true) :
    (∀ e ∈ repairArchive entries,
      ¬((str "content/").isPrefixOf e.path = true ∧ (str "/").isSuffixOf e.path = true)) ∧
    (∀ e ∈ entries, (str "content/").isPrefixOf e.path = true → e.dir = false →
      e ∈ repairArchive entries) := by
  constructor
  · intro e he hcontra
    obtain ⟨hpfx, hsfx⟩ := hcontra
    unfold repairArchive removeContentDirEntries at he
    rw [List.mem_filter] at he
    obtain ⟨he1, hcond⟩ := he
    unfold removeContentRootEntry at he1
    rw [List.mem_filter] at he1
    have hdir : e.dir = true := hinv e he1.1 hsfx
    rw [hpfx, hsfx, hdir] at hcond
    simp at hcond
  · intro e he hpfx hdir
    have hnsfx : (str "/").isSuffixOf e.path = false := by
      cases hsf : (str "/").isSuffixOf e.path
      · rfl
      · rw [hinv e he hsf] at hdir
        simp at hdir
    have hne : (e.path == str "content/") = false := by
      cases heq : (e.path == str "content/")
      · rfl
      · have hpe : e.path = str "content/" := eq_of_beq heq
        rw [hpe] at hnsfx
        exact absurd hnsfx (by decide)
    unfold repairArchive removeContentDirEntries removeContentRootEntry
    rw [List.mem_filter, List.mem_filter]
    refine ⟨⟨he, by simp [hne]⟩, by simp [hnsfx]⟩

/-- Claim C6 (witness): in a concrete entry table with the directory entries
`content/` and `content/images/`, the file `content/content.json` survives
the repair unchanged. -/
theorem c6_witness :
    (⟨str "content/content.json", false, str "data"⟩ : ZipEntry) ∈
      repairArchive [⟨str "content/", true, str ""⟩,
        ⟨str "content/content.json", false, str "data"⟩,
        ⟨str "content/images/", true, str ""⟩,
        ⟨str "h5p.json", false, str "manifest"⟩] := by
  exact (c6_repair_removes_only_dir_entries _ (by decide)).2
    ⟨str "content/content.json", false, str "data"⟩ (by decide) (by decide) rfl
